import Mathlib

/-!
Shallow embedding of `src/draw/nxp/g2d/lv_g2d_buf_map.c`: a fixed-capacity
hash table mapping an opaque pointer key to a `g2d_buf *` resource, with
per-bucket singly linked overflow chains.

Modelling choices, stated once:

* Pointers (keys, resource handles) are modelled as `Nat` identity tokens;
  `0` plays the role of `NULL`.  The table only ever compares keys for
  equality and never dereferences them, so this is faithful.
* Heap allocation is implicit (structures are values); every `lv_free` of a
  key allocation and every `g2d_free` of a resource handle is recorded in a
  ghost release log (`freed_keys` / `freed_vals`), so that ownership and
  release-count properties can be stated.
* A chain node is modelled by its `item` pointer: `some e` is a live node
  whose item holds entry `e`; `none` is a node whose item pointer was set
  to `NULL` by `_list_free` before the node itself was freed, but which is
  still linked from its predecessor (the mid-chain removal defect leaves
  exactly such a node behind).  Any later execution of `node->item->key` or
  `node->item->value` on such a node is a NULL-pointer dereference; the
  operations that can perform one (`lv_free_item`, `lv_free_buf_map`,
  `_list_free`) therefore return `Option World`, with `none` standing for
  the crash (no post-crash state is tracked).  `lv_search_buf_map` only
  copies the head's item pointer into a local and never dereferences a
  chain node's item, and `_list_insert` only follows `next` pointers, so
  those stay total.
* `_list_insert` walks with `while(temp->next->next)` to the second-to-last
  node and then overwrites `temp->next` with the fresh node: for a list
  that already has at least two nodes, the old last node is unlinked and
  leaked (its entry is never released); only for lists of length 0 or 1 is
  the new node actually appended.  The model reproduces exactly this.
* `_map_hash_function` renders the pointer with `sprintf "%p"`, sums the
  character codes of that platform-dependent text and reduces modulo
  `HASH_TABLE_SIZE`.  The character-sum of the rendering is not modellable
  platform-independently, so it is an arbitrary pure function parameter
  `hashFn`; the final `% HASH_TABLE_SIZE` is from the source.  Every
  property proved below holds for every such pure hash.
* `_handle_collision` creates the first chain node without initialising its
  `next` field; as everywhere else in the file the node is treated as a
  one-element list (`next = NULL`), the only reading under which the rest
  of the code is meaningful.
* `G2D_ASSERT_MSG(false, ...)` on the table-full path is modelled as the
  `Bool` component of the insert result: `false` means the assertion fired
  and the call failed.
-/

/-- `#define HASH_TABLE_SIZE 50`. -/
def HASH_TABLE_SIZE : Nat := 50

/-- `lv_map_item_t`: one key/value pair (`void * key`, `struct g2d_buf * value`),
both modelled as `Nat` identity tokens. -/
structure lv_map_item_t where
  key : Nat
  value : Nat
deriving DecidableEq, Repr

/-- `lv_buf_map_t`: the table.  `items` is the primary-slot array
(`lv_map_item_t **`, `NULL` = `none`), `overflow_list` the per-bucket chain
array.  A chain is the list of its nodes' `item` pointers: `some e` a live
node, `none` a freed node whose item pointer was NULLed but which is still
linked (see the module comment). -/
structure lv_buf_map_t where
  size : Nat
  count : Nat
  items : List (Option lv_map_item_t)
  overflow_list : List (List (Option lv_map_item_t))
deriving DecidableEq, Repr

/-- The table together with the ghost release log: `freed_keys` records the
arguments of `lv_free(item->key)` calls, `freed_vals` the arguments of
`g2d_free(item->value)` calls, in program order. -/
structure World where
  table : lv_buf_map_t
  freed_keys : List Nat
  freed_vals : List Nat
deriving DecidableEq, Repr

/-- `_map_hash_function`: the character-sum of the `%p` rendering is the
pure parameter `hashFn`; the `% HASH_TABLE_SIZE` reduction is from the
source. -/
def _map_hash_function (hashFn : Nat → Nat) (ptr : Nat) : Nat :=
  hashFn ptr % HASH_TABLE_SIZE

/-- `lv_create_buf_map`: size 50, count 0, both arrays zero-initialised. -/
def lv_create_buf_map : World :=
  { table :=
      { size := HASH_TABLE_SIZE
        count := 0
        items := List.replicate HASH_TABLE_SIZE none
        overflow_list := List.replicate HASH_TABLE_SIZE [] }
    freed_keys := []
    freed_vals := [] }

/-- `_map_free_item`: `lv_free(item->key); g2d_free(item->value);` then the
item struct itself is freed.  Only the two releases are observable. -/
def _map_free_item (item : lv_map_item_t) (w : World) : World :=
  { w with
      freed_keys := w.freed_keys ++ [item.key]
      freed_vals := w.freed_vals ++ [item.value] }

/-- `_list_free`: walks the list; for each node it dereferences
`temp->item->key` / `temp->item->value` — a NULL dereference (`none`
result) when the node's item pointer is already `NULL` — releases the
entry, NULLs the node's item pointer and frees the node. -/
def _list_free : List (Option lv_map_item_t) → World → Option World
  | [], w => some w
  | none :: _, _ => none
  | some it :: rest, w => _list_free rest (_map_free_item it w)

/-- `_list_insert`: only follows `next` pointers, so it never crashes.  An
empty list gets a fresh head; a one-node list gets the new node appended;
for a list of two or more nodes `while(temp->next->next)` stops at the
second-to-last node and `temp->next = node` overwrites the link to the old
last node, which is unlinked and leaked (its entry is never released). -/
def _list_insert : List (Option lv_map_item_t) → lv_map_item_t →
    List (Option lv_map_item_t)
  | [], item => [some item]
  | [n0], item => [n0, some item]
  | [n0, _n1], item => [n0, some item]
  | n0 :: n1 :: n2 :: rest, item => n0 :: _list_insert (n1 :: n2 :: rest) item

/-- `_handle_collision`: if the bucket has no chain, create a one-node
chain holding `item`; otherwise `_list_insert` it. -/
def _handle_collision (index : Nat) (item : lv_map_item_t)
    (t : lv_buf_map_t) : lv_buf_map_t :=
  match t.overflow_list.getD index [] with
  | [] => { t with overflow_list := t.overflow_list.set index [some item] }
  | head =>
      { t with overflow_list := t.overflow_list.set index (_list_insert head item) }

/-- `lv_insert_buf_map`.  The `Bool` is `false` exactly when the table-full
assertion fires (the entry was released and nothing was inserted), `true`
otherwise.  Only the primary item is dereferenced, never a chain node's
item, so insert is total. -/
def lv_insert_buf_map (hashFn : Nat → Nat) (key value : Nat) (w : World) :
    World × Bool :=
  let item : lv_map_item_t := { key := key, value := value }
  let index := _map_hash_function hashFn key
  let t := w.table
  match t.items.getD index none with
  | none =>
      if t.count = t.size then
        (_map_free_item item w, false)
      else
        ({ w with
            table :=
              { t with
                  items := t.items.set index (some item)
                  count := t.count + 1 } },
          true)
  | some curr =>
      if curr.key = key then
        ({ w with
            table :=
              { t with
                  items := t.items.set index (some { curr with value := value }) } },
          true)
      else
        ({ w with table := _handle_collision index item t }, true)

/-- `lv_search_buf_map`: returns the primary slot's value on a key match;
on a primary mismatch the C copies the chain head's item pointer into a
local (without dereferencing its fields) and then falls through to
`return NULL`, so no chained entry is ever returned and no crash occurs. -/
def lv_search_buf_map (hashFn : Nat → Nat) (key : Nat) (w : World) :
    Option Nat :=
  let index := _map_hash_function hashFn key
  match w.table.items.getD index none with
  | none => none
  | some item =>
      if item.key = key then some item.value
      else
        match w.table.overflow_list.getD index [] with
        | [] => none
        | _ :: _ => none

/-- Result of scanning the chain past its head in `lv_free_item`:
the loop crashed on a node with a NULL item pointer, found no match, or
found a match, yielding the reachable remainder of the list from the
matched position on, together with the released entry. -/
inductive ScanResult where
  | crash : ScanResult
  | noMatch : ScanResult
  | found : List (Option lv_map_item_t) → lv_map_item_t → ScanResult
deriving DecidableEq

/-- The while loop of `lv_free_item` searching the chain past its head.
Each iteration reads `curr->item->key`: on a node whose item pointer is
`NULL` this is a crash.  The loop advances with `curr = curr->next;
prev = curr;`, so at every match found after the head `prev == curr`: the
splice `prev->next = curr->next` is a self-assignment with no effect,
`curr->next = NULL` truncates the chain at the matched node (detaching and
leaking its successors), and `_list_free(curr)` releases the matched
node's entry and NULLs its item pointer while the predecessor still links
the freed node — hence the `none` ending the returned remainder. -/
def chain_scan (key : Nat) : List (Option lv_map_item_t) → ScanResult
  | [] => ScanResult.noMatch
  | none :: _ => ScanResult.crash
  | some e :: rest =>
      if e.key = key then ScanResult.found [none] e
      else
        match chain_scan key rest with
        | ScanResult.crash => ScanResult.crash
        | ScanResult.noMatch => ScanResult.noMatch
        | ScanResult.found l freed => ScanResult.found (some e :: l) freed

/-- `lv_free_item` (remove by key).  `none` is a NULL-pointer dereference:
when the bucket's chain head is a freed node, both the promotion path
(`node->item->key`) and the search loop (`curr->item->key`) dereference its
NULL item pointer (in the promotion path the primary entry is released
just before the crash; since no post-crash state is tracked, the result is
`none` either way). -/
def lv_free_item (hashFn : Nat → Nat) (key : Nat) (w : World) : Option World :=
  let index := _map_hash_function hashFn key
  let t := w.table
  match t.items.getD index none with
  | none => some w
  | some item =>
      match t.overflow_list.getD index [] with
      | [] =>
          if item.key = key then
            let w1 := _map_free_item item w
            some { w1 with
                table :=
                  { t with
                      items := t.items.set index none
                      count := t.count - 1 } }
          else some w
      | none :: _rest => none
      | some e :: rest =>
          if item.key = key then
            let w1 := _map_free_item item w
            let w2 := _map_free_item e w1
            some { w2 with
                table :=
                  { t with
                      items := t.items.set index (some { key := e.key, value := e.value })
                      overflow_list := t.overflow_list.set index rest } }
          else if e.key = key then
            match _list_free (some e :: rest) w with
            | none => none
            | some w1 =>
                some { w1 with
                    table :=
                      { t with overflow_list := t.overflow_list.set index [] } }
          else
            match chain_scan key rest with
            | ScanResult.crash => none
            | ScanResult.noMatch => some w
            | ScanResult.found l freed =>
                let w1 := _map_free_item freed w
                some { w1 with
                    table :=
                      { t with overflow_list := t.overflow_list.set index (some e :: l) } }

/-- `lv_free_buf_map` (destroy): releases every occupied primary slot's
entry (primary items are always live structs, so this part is total), then
every chain via `_list_free` in `_free_overflow_list` — which crashes on a
dangling node — then frees both arrays and the table struct (modelled by
clearing the arrays). -/
def lv_free_buf_map (w : World) : Option World :=
  let w1 := w.table.items.foldl
    (fun acc o =>
      match o with
      | some item => _map_free_item item acc
      | none => acc) w
  match w1.table.overflow_list.foldlM (fun acc l => _list_free l acc) w1 with
  | none => none
  | some w2 =>
      some { w2 with
          table :=
            { size := w.table.size
              count := w.table.count
              items := []
              overflow_list := [] } }

/-- States reachable from `lv_create_buf_map` by any sequence of insert and
(non-crashing) remove calls.  `lv_search_buf_map` is a pure function of the
state and does not change it, so it needs no constructor. -/
inductive Reachable (hashFn : Nat → Nat) : World → Prop
  | create : Reachable hashFn lv_create_buf_map
  | insert (k v : Nat) {w : World} :
      Reachable hashFn w → Reachable hashFn (lv_insert_buf_map hashFn k v w).1
  | remove (k : Nat) {w w2 : World} :
      Reachable hashFn w → lv_free_item hashFn k w = some w2 →
      Reachable hashFn w2

/-- Whether a chain node is a live node holding an entry whose key is
`key`. -/
def nodeMatches (key : Nat) : Option lv_map_item_t → Bool
  | some e => e.key = key
  | none => false

/-- Number of entries matching `key` stored in the bucket `key` hashes to:
the primary slot plus the live nodes of the bucket's chain. -/
def bucketOccurrences (hashFn : Nat → Nat) (key : Nat) (w : World) : Nat :=
  let index := _map_hash_function hashFn key
  (match w.table.items.getD index none with
   | some it => if it.key = key then 1 else 0
   | none => 0) +
    (w.table.overflow_list.getD index []).countP (nodeMatches key)

/-- A constant hash: every key lands in bucket 0.  A legitimate instance of
the pure-hash parameter, used to build colliding traces. -/
def hash0 : Nat → Nat := fun _ => 0

/-- Trace: create, insert key 1 ↦ resource 10 (primary slot of bucket 0),
insert key 2 ↦ resource 20 (collides, goes to bucket 0's chain). -/
def wAB : World :=
  (lv_insert_buf_map hash0 2 20 (lv_insert_buf_map hash0 1 10 lv_create_buf_map).1).1

/-- Trace: `wAB` then remove key 1 (primary-slot match with non-empty
chain: the promotion path runs; it does not crash, as the accompanying
theorems check, so the `getD` default is never taken). -/
def wProm : World := (lv_free_item hash0 1 wAB).getD lv_create_buf_map

/-- Trace: `wAB` then insert 3 ↦ 30 (appended to the one-node chain, so
bucket 0 holds primary 1 and chain `[2, 3]`). -/
def wMidPre : World := (lv_insert_buf_map hash0 3 30 wAB).1

/-- Trace: `wMidPre` then remove key 3 — a chain node that is neither the
primary slot nor the chain head (crash-free, see the C4 theorem). -/
def wMid : World := (lv_free_item hash0 3 wMidPre).getD lv_create_buf_map

/-- Trace: `wAB` then insert key 2 a second time with resource 21 (primary
key is 1 ≠ 2, so the duplicate is appended to the one-node chain), then
remove key 1 (promotion makes key 2 primary while another key-2 entry
stays chained; crash-free, see the C8 counterexample). -/
def wDup : World :=
  (lv_free_item hash0 1 (lv_insert_buf_map hash0 2 21 wAB).1).getD lv_create_buf_map

/-- C1: after `insert(1,10)` and the colliding `insert(2,20)`, the entry for
key 2 is stored in bucket 0's overflow chain, yet `find(2)` returns absent:
`lv_search_buf_map` never returns a chained entry (it reads the chain head
into locals and falls through to `return NULL`), so the round-trip
`insert(k,r)` → `find(k) = r` fails for chained keys, against the spec's
full-chain-traversal contract. -/
theorem C1_find_never_returns_chained_entry :
    wAB.table.overflow_list.getD 0 [] = [some { key := 2, value := 20 }] ∧
      lv_search_buf_map hash0 2 wAB = none ∧
      lv_search_buf_map hash0 1 wAB = some 10 := by decide

/-- C2: in the trace insert(1,10), insert(2,20) colliding, remove(1),
destroy (all crash-free): resource 20 is released twice — once by
`_list_free` during the promotion inside `lv_free_item`, once again at
`lv_free_buf_map` for the promoted primary entry — against the claim that
every stored resource is released exactly once across the table's
lifetime. -/
theorem C2_promoted_resource_released_twice :
    (lv_free_item hash0 1 wAB).isSome = true ∧
      (lv_free_buf_map wProm).map (fun x => x.freed_vals.count 20) = some 2 ∧
      (lv_free_buf_map wProm).map (fun x => x.freed_vals.count 10) = some 1 := by
  decide

/-- C3: after remove(1) hits the promotion path, the promoted entry
(key 2, resource 20) does sit in the primary slot and `find(2)` returns 20,
but the promotion already released both its key allocation and its
resource (`_map_create_item` copies the fields, then `_list_free` frees the
detached node's entry, not just the node wrapper), against the claim that
neither is released. -/
theorem C3_promotion_releases_promoted_entry :
    (lv_free_item hash0 1 wAB).isSome = true ∧
      wProm.table.items.getD 0 none = some { key := 2, value := 20 } ∧
      lv_search_buf_map hash0 2 wProm = some 20 ∧
      wProm.freed_keys.count 2 = 1 ∧
      wProm.freed_vals.count 20 = 1 := by decide

/-- C4: three keys hash to bucket 0 (primary 1 ↦ 10, chain
`[2 ↦ 20, 3 ↦ 30]`).  Removing key 3 — a chain node that is neither
primary nor head — does release entry 3, but because the loop advances
`prev = curr` the splice is a self-assignment: the predecessor does not
skip the removed node, which stays linked with a NULL item pointer
(`[some (2,20), none]`), so the very next remove that searches this chain
crashes on it.  And removing the middle-inserted key 2 (the chain head)
destroys the whole remaining chain: entry 3 is released too and no longer
stored, so the other entries do not remain independently findable. -/
theorem C4_mid_chain_removal_does_not_splice :
    (lv_free_item hash0 3 wMidPre).isSome = true ∧
      wMid.table.overflow_list.getD 0 [] = [some { key := 2, value := 20 }, none] ∧
      wMid.freed_vals = [30] ∧
      lv_free_item hash0 3 wMid = none ∧
      (lv_free_item hash0 2 wMidPre).map
          (fun x => (x.table.overflow_list.getD 0 [], x.freed_vals)) =
        some ([], [20, 30]) := by decide

/-- C8 counterexample: key 2 can be stored twice (primary key 1 with chain
`[2 ↦ 20, 2 ↦ 21]`, then remove(1) promotes one copy to the primary slot
with the other still chained); from that state the second of two
consecutive `remove(2)` calls is not a no-op — it removes the second copy
and changes the table. -/
theorem C8_counterexample_remove_not_idempotent :
    (lv_free_item hash0 2 wDup).bind (lv_free_item hash0 2) ≠
      lv_free_item hash0 2 wDup := by decide

/-! ### List helper lemmas -/

theorem list_getD_set_self {α : Type} (l : List α) (i : Nat) (v d : α)
    (h : i < l.length) : (l.set i v).getD i d = v := by
  simp [List.getD_eq_getElem?_getD, List.getElem?_set, h]

theorem list_getD_set_ne {α : Type} (l : List α) (i j : Nat) (v d : α)
    (h : i ≠ j) : (l.set i v).getD j d = l.getD j d := by
  simp [List.getD_eq_getElem?_getD, List.getElem?_set, h]

theorem list_getD_replicate {α : Type} (n i : Nat) (a d : α) :
    (List.replicate n a).getD i d = if i < n then a else d := by
  simp only [List.getD_eq_getElem?_getD, List.getElem?_replicate]
  split <;> rfl

theorem list_getD_default_of_le {α : Type} (l : List α) (d : α) (i : Nat)
    (h : l.length ≤ i) : l.getD i d = d := by
  simp [List.getD_eq_getElem?_getD, List.getElem?_eq_none h]

theorem lt_length_of_getD_ne {α : Type} (l : List α) (d : α) (i : Nat)
    (h : l.getD i d ≠ d) : i < l.length := by
  by_contra hlt
  exact h (list_getD_default_of_le l d i (Nat.le_of_not_lt hlt))

theorem countP_isSome_set_some_of_none (l : List (Option lv_map_item_t))
    (i : Nat) (x : lv_map_item_t) (h : l.getD i none = none) :
    (l.set i (some x)).countP (fun o => o.isSome) =
      l.countP (fun o => o.isSome) + (if i < l.length then 1 else 0) := by
  induction l generalizing i with
  | nil => simp
  | cons a l ih =>
      cases i with
      | zero =>
          simp only [List.getD_cons_zero] at h
          subst h
          simp [List.countP_cons]
      | succ n =>
          simp only [List.getD_cons_succ] at h
          simp only [List.set_cons_succ, List.countP_cons, List.length_cons, ih n h]
          by_cases hn : n < l.length <;>
            simp only [hn, Nat.succ_lt_succ_iff, if_true, if_false] <;> omega

theorem countP_isSome_set_some_of_some (l : List (Option lv_map_item_t))
    (i : Nat) (x y : lv_map_item_t) (h : l.getD i none = some y) :
    (l.set i (some x)).countP (fun o => o.isSome) =
      l.countP (fun o => o.isSome) := by
  induction l generalizing i with
  | nil => simp
  | cons a l ih =>
      cases i with
      | zero =>
          simp only [List.getD_cons_zero] at h
          subst h
          simp [List.countP_cons]
      | succ n =>
          simp only [List.getD_cons_succ] at h
          simp only [List.set_cons_succ, List.countP_cons, ih n h]

theorem countP_isSome_set_none_of_some (l : List (Option lv_map_item_t))
    (i : Nat) (y : lv_map_item_t) (h : l.getD i none = some y) :
    l.countP (fun o => o.isSome) =
      (l.set i none).countP (fun o => o.isSome) + 1 := by
  induction l generalizing i with
  | nil => simp at h
  | cons a l ih =>
      cases i with
      | zero =>
          simp only [List.getD_cons_zero] at h
          subst h
          simp [List.countP_cons]
      | succ n =>
          simp only [List.getD_cons_succ] at h
          simp only [List.set_cons_succ, List.countP_cons, ih n h]
          omega

theorem countP_isSome_lt_length_of_none (l : List (Option lv_map_item_t))
    (i : Nat) (hlen : i < l.length) (h : l.getD i none = none) :
    l.countP (fun o => o.isSome) < l.length := by
  induction l generalizing i with
  | nil => simp at hlen
  | cons a l ih =>
      cases i with
      | zero =>
          simp only [List.getD_cons_zero] at h
          subst h
          have := List.countP_le_length (l := l) (p := fun o => o.isSome)
          simp only [List.countP_cons, List.length_cons, Option.isSome_none,
            Bool.false_eq_true, if_false]
          omega
      | succ n =>
          simp only [List.getD_cons_succ] at h
          simp only [List.length_cons] at hlen
          have := ih n (by omega) h
          simp only [List.countP_cons, List.length_cons]
          split <;> omega

/-! ### Branch lemmas: each case of insert and remove, as record equations -/

theorem insert_eq_of_full (hashFn : Nat → Nat) (k v : Nat) (w : World)
    (hslot : w.table.items.getD (_map_hash_function hashFn k) none = none)
    (hfull : w.table.count = w.table.size) :
    lv_insert_buf_map hashFn k v w =
      (_map_free_item { key := k, value := v } w, false) := by
  simp only [lv_insert_buf_map, hslot]
  simp [hfull]

theorem insert_eq_of_empty_slot (hashFn : Nat → Nat) (k v : Nat) (w : World)
    (hslot : w.table.items.getD (_map_hash_function hashFn k) none = none)
    (hroom : w.table.count ≠ w.table.size) :
    lv_insert_buf_map hashFn k v w =
      ({ w with
          table :=
            { w.table with
                items :=
                  w.table.items.set (_map_hash_function hashFn k)
                    (some { key := k, value := v })
                count := w.table.count + 1 } },
        true) := by
  simp only [lv_insert_buf_map, hslot]
  simp [hroom]

theorem insert_eq_of_update (hashFn : Nat → Nat) (k v : Nat) (w : World)
    (p : lv_map_item_t)
    (hslot : w.table.items.getD (_map_hash_function hashFn k) none = some p)
    (hkey : p.key = k) :
    lv_insert_buf_map hashFn k v w =
      ({ w with
          table :=
            { w.table with
                items :=
                  w.table.items.set (_map_hash_function hashFn k)
                    (some { key := p.key, value := v }) } },
        true) := by
  simp only [lv_insert_buf_map, hslot]
  simp [hkey]

theorem insert_eq_of_collision (hashFn : Nat → Nat) (k v : Nat) (w : World)
    (p : lv_map_item_t)
    (hslot : w.table.items.getD (_map_hash_function hashFn k) none = some p)
    (hkey : p.key ≠ k) :
    lv_insert_buf_map hashFn k v w =
      ({ w with
          table :=
            _handle_collision (_map_hash_function hashFn k)
              { key := k, value := v } w.table },
        true) := by
  simp only [lv_insert_buf_map, hslot]
  simp [hkey]

theorem remove_eq_of_absent (hashFn : Nat → Nat) (k : Nat) (w : World)
    (hslot : w.table.items.getD (_map_hash_function hashFn k) none = none) :
    lv_free_item hashFn k w = some w := by
  simp only [lv_free_item, hslot]

theorem remove_eq_of_primary_no_chain (hashFn : Nat → Nat) (k : Nat)
    (w : World) (p : lv_map_item_t)
    (hslot : w.table.items.getD (_map_hash_function hashFn k) none = some p)
    (hchain : w.table.overflow_list.getD (_map_hash_function hashFn k) [] = [])
    (hkey : p.key = k) :
    lv_free_item hashFn k w =
      some { _map_free_item p w with
          table :=
            { w.table with
                items := w.table.items.set (_map_hash_function hashFn k) none
                count := w.table.count - 1 } } := by
  simp only [lv_free_item, hslot, hchain]
  simp [hkey]

theorem remove_eq_of_no_match_no_chain (hashFn : Nat → Nat) (k : Nat)
    (w : World) (p : lv_map_item_t)
    (hslot : w.table.items.getD (_map_hash_function hashFn k) none = some p)
    (hchain : w.table.overflow_list.getD (_map_hash_function hashFn k) [] = [])
    (hkey : p.key ≠ k) :
    lv_free_item hashFn k w = some w := by
  simp only [lv_free_item, hslot, hchain]
  simp [hkey]

theorem remove_eq_of_dangling_head (hashFn : Nat → Nat) (k : Nat)
    (w : World) (p : lv_map_item_t) (rest : List (Option lv_map_item_t))
    (hslot : w.table.items.getD (_map_hash_function hashFn k) none = some p)
    (hchain : w.table.overflow_list.getD (_map_hash_function hashFn k) [] =
      none :: rest) :
    lv_free_item hashFn k w = none := by
  simp only [lv_free_item, hslot, hchain]

theorem remove_eq_of_promote (hashFn : Nat → Nat) (k : Nat) (w : World)
    (p e : lv_map_item_t) (rest : List (Option lv_map_item_t))
    (hslot : w.table.items.getD (_map_hash_function hashFn k) none = some p)
    (hchain : w.table.overflow_list.getD (_map_hash_function hashFn k) [] =
      some e :: rest)
    (hkey : p.key = k) :
    lv_free_item hashFn k w =
      some { _map_free_item e (_map_free_item p w) with
          table :=
            { w.table with
                items :=
                  w.table.items.set (_map_hash_function hashFn k)
                    (some { key := e.key, value := e.value })
                overflow_list :=
                  w.table.overflow_list.set (_map_hash_function hashFn k) rest } } := by
  simp only [lv_free_item, hslot, hchain]
  simp [hkey]

theorem remove_eq_of_chain_head (hashFn : Nat → Nat) (k : Nat) (w : World)
    (p e : lv_map_item_t) (rest : List (Option lv_map_item_t)) (w1 : World)
    (hslot : w.table.items.getD (_map_hash_function hashFn k) none = some p)
    (hchain : w.table.overflow_list.getD (_map_hash_function hashFn k) [] =
      some e :: rest)
    (hkey : p.key ≠ k) (hhead : e.key = k)
    (hlf : _list_free (some e :: rest) w = some w1) :
    lv_free_item hashFn k w =
      some { w1 with
          table :=
            { w.table with
                overflow_list :=
                  w.table.overflow_list.set (_map_hash_function hashFn k) [] } } := by
  simp only [lv_free_item, hslot, hchain, hlf]
  simp [hkey, hhead]

theorem remove_eq_of_chain_head_crash (hashFn : Nat → Nat) (k : Nat)
    (w : World) (p e : lv_map_item_t) (rest : List (Option lv_map_item_t))
    (hslot : w.table.items.getD (_map_hash_function hashFn k) none = some p)
    (hchain : w.table.overflow_list.getD (_map_hash_function hashFn k) [] =
      some e :: rest)
    (hkey : p.key ≠ k) (hhead : e.key = k)
    (hlf : _list_free (some e :: rest) w = none) :
    lv_free_item hashFn k w = none := by
  simp only [lv_free_item, hslot, hchain, hlf]
  simp [hkey, hhead]

theorem remove_eq_of_scan_crash (hashFn : Nat → Nat) (k : Nat) (w : World)
    (p e : lv_map_item_t) (rest : List (Option lv_map_item_t))
    (hslot : w.table.items.getD (_map_hash_function hashFn k) none = some p)
    (hchain : w.table.overflow_list.getD (_map_hash_function hashFn k) [] =
      some e :: rest)
    (hkey : p.key ≠ k) (hhead : e.key ≠ k)
    (hscan : chain_scan k rest = ScanResult.crash) :
    lv_free_item hashFn k w = none := by
  simp only [lv_free_item, hslot, hchain, hscan]
  simp [hkey, hhead]

theorem remove_eq_of_scan_noMatch (hashFn : Nat → Nat) (k : Nat) (w : World)
    (p e : lv_map_item_t) (rest : List (Option lv_map_item_t))
    (hslot : w.table.items.getD (_map_hash_function hashFn k) none = some p)
    (hchain : w.table.overflow_list.getD (_map_hash_function hashFn k) [] =
      some e :: rest)
    (hkey : p.key ≠ k) (hhead : e.key ≠ k)
    (hscan : chain_scan k rest = ScanResult.noMatch) :
    lv_free_item hashFn k w = some w := by
  simp only [lv_free_item, hslot, hchain, hscan]
  simp [hkey, hhead]

theorem remove_eq_of_scan_found (hashFn : Nat → Nat) (k : Nat) (w : World)
    (p e freed : lv_map_item_t) (rest l : List (Option lv_map_item_t))
    (hslot : w.table.items.getD (_map_hash_function hashFn k) none = some p)
    (hchain : w.table.overflow_list.getD (_map_hash_function hashFn k) [] =
      some e :: rest)
    (hkey : p.key ≠ k) (hhead : e.key ≠ k)
    (hscan : chain_scan k rest = ScanResult.found l freed) :
    lv_free_item hashFn k w =
      some { _map_free_item freed w with
          table :=
            { w.table with
                overflow_list :=
                  w.table.overflow_list.set (_map_hash_function hashFn k)
                    (some e :: l) } } := by
  simp only [lv_free_item, hslot, hchain, hscan]
  simp [hkey, hhead]

/-! ### chain_scan and _list_free facts -/

theorem no_match_of_countP_zero (k : Nat) (l : List (Option lv_map_item_t))
    (h : l.countP (nodeMatches k) = 0) :
    ∀ e : lv_map_item_t, some e ∈ l → e.key ≠ k := by
  intro e he hk2
  have h2 := List.countP_eq_zero.mp h _ he
  simp [nodeMatches, hk2] at h2

theorem chain_scan_noMatch_of_live_no_match (k : Nat)
    (l : List (Option lv_map_item_t))
    (hlive : ∀ x ∈ l, x.isSome = true)
    (hnm : l.countP (nodeMatches k) = 0) :
    chain_scan k l = ScanResult.noMatch := by
  induction l with
  | nil => rfl
  | cons n rest ih =>
      rcases n with _ | e
      · have h2 := hlive none (List.mem_cons_self _ _)
        simp at h2
      · have he : e.key ≠ k :=
          no_match_of_countP_zero k _ hnm e (List.mem_cons_self _ _)
        have hrest : rest.countP (nodeMatches k) = 0 := by
          rw [List.countP_cons] at hnm
          have hfalse : nodeMatches k (some e) = false := by simp [nodeMatches, he]
          rw [hfalse] at hnm
          simpa using hnm
        simp only [chain_scan, he, if_false,
          ih (fun x hx => hlive x (List.mem_cons_of_mem _ hx)) hrest]

theorem _list_free_live (l : List (Option lv_map_item_t)) :
    ∀ w : World, (∀ x ∈ l, x.isSome = true) →
      ∃ w1, _list_free l w = some w1 ∧ w1.table = w.table := by
  induction l with
  | nil => intro w _; exact ⟨w, rfl, rfl⟩
  | cons n rest ih =>
      intro w hlive
      rcases n with _ | e
      · have h2 := hlive none (List.mem_cons_self _ _)
        simp at h2
      · obtain ⟨w1, h1, h2⟩ :=
          ih (_map_free_item e w) (fun x hx => hlive x (List.mem_cons_of_mem _ hx))
        exact ⟨w1, h1, h2⟩

/-! ### The table invariant and its preservation -/

theorem hash_lt (hashFn : Nat → Nat) (k : Nat) :
    _map_hash_function hashFn k < HASH_TABLE_SIZE :=
  Nat.mod_lt _ (by decide)

theorem _handle_collision_items (index : Nat) (item : lv_map_item_t)
    (t : lv_buf_map_t) : (_handle_collision index item t).items = t.items := by
  unfold _handle_collision; split <;> rfl

theorem _handle_collision_count (index : Nat) (item : lv_map_item_t)
    (t : lv_buf_map_t) : (_handle_collision index item t).count = t.count := by
  unfold _handle_collision; split <;> rfl

theorem _handle_collision_size (index : Nat) (item : lv_map_item_t)
    (t : lv_buf_map_t) : (_handle_collision index item t).size = t.size := by
  unfold _handle_collision; split <;> rfl

theorem _handle_collision_overflow_length (index : Nat) (item : lv_map_item_t)
    (t : lv_buf_map_t) :
    (_handle_collision index item t).overflow_list.length = t.overflow_list.length := by
  unfold _handle_collision; split <;> simp [List.length_set]

theorem _handle_collision_overflow_getD_ne (index : Nat) (item : lv_map_item_t)
    (t : lv_buf_map_t) (i : Nat) (h : index ≠ i) :
    (_handle_collision index item t).overflow_list.getD i [] =
      t.overflow_list.getD i [] := by
  unfold _handle_collision; split <;> exact list_getD_set_ne _ _ _ _ _ h

/-- The reachable-state invariant: the array sizes are fixed at
`HASH_TABLE_SIZE`, `count` equals the number of occupied primary slots, and
no bucket has an overflow chain without a primary occupant. -/
structure TableInv (w : World) : Prop where
  size_eq : w.table.size = HASH_TABLE_SIZE
  items_len : w.table.items.length = HASH_TABLE_SIZE
  overflow_len : w.table.overflow_list.length = HASH_TABLE_SIZE
  count_eq : w.table.count = w.table.items.countP (fun o => o.isSome)
  chain_of_empty : ∀ i, w.table.items.getD i none = none →
    w.table.overflow_list.getD i [] = []

theorem TableInv_create : TableInv lv_create_buf_map := by
  refine ⟨rfl, by simp [lv_create_buf_map], by simp [lv_create_buf_map],
    by decide, ?_⟩
  intro i _hi
  show (List.replicate HASH_TABLE_SIZE
    ([] : List (Option lv_map_item_t))).getD i [] = []
  rw [list_getD_replicate]
  split <;> rfl

theorem TableInv_insert (hashFn : Nat → Nat) (k v : Nat) (w : World) (h : TableInv w) :
    TableInv (lv_insert_buf_map hashFn k v w).1 := by
  have hidx : _map_hash_function hashFn k < HASH_TABLE_SIZE := hash_lt hashFn k
  rcases hslot : w.table.items.getD (_map_hash_function hashFn k) none with _ | p
  · by_cases hfull : w.table.count = w.table.size
    · rw [insert_eq_of_full hashFn k v w hslot hfull]
      exact ⟨h.size_eq, h.items_len, h.overflow_len, h.count_eq, h.chain_of_empty⟩
    · rw [insert_eq_of_empty_slot hashFn k v w hslot hfull]
      have hlen : _map_hash_function hashFn k < w.table.items.length := by
        rw [h.items_len]; exact hidx
      refine ⟨h.size_eq, by simp [h.items_len], h.overflow_len, ?_, ?_⟩
      · show w.table.count + 1 = _
        rw [countP_isSome_set_some_of_none w.table.items _ _ hslot, if_pos hlen,
          h.count_eq]
      · intro i hi
        by_cases hieq : _map_hash_function hashFn k = i
        · subst hieq
          rw [list_getD_set_self _ _ _ _ hlen] at hi
          cases hi
        · rw [list_getD_set_ne _ _ _ _ _ hieq] at hi
          exact h.chain_of_empty i hi
  · have hlen : _map_hash_function hashFn k < w.table.items.length :=
      lt_length_of_getD_ne _ none _ (by rw [hslot]; simp)
    by_cases hkey : p.key = k
    · rw [insert_eq_of_update hashFn k v w p hslot hkey]
      refine ⟨h.size_eq, by simp [h.items_len], h.overflow_len, ?_, ?_⟩
      · show w.table.count = _
        rw [countP_isSome_set_some_of_some w.table.items _ _ p hslot, h.count_eq]
      · intro i hi
        by_cases hieq : _map_hash_function hashFn k = i
        · subst hieq
          rw [list_getD_set_self _ _ _ _ hlen] at hi
          cases hi
        · rw [list_getD_set_ne _ _ _ _ _ hieq] at hi
          exact h.chain_of_empty i hi
    · rw [insert_eq_of_collision hashFn k v w p hslot hkey]
      refine ⟨?_, ?_, ?_, ?_, ?_⟩
      · show (_handle_collision _ _ _).size = _
        rw [_handle_collision_size]; exact h.size_eq
      · show (_handle_collision _ _ _).items.length = _
        rw [_handle_collision_items]; exact h.items_len
      · show (_handle_collision _ _ _).overflow_list.length = _
        rw [_handle_collision_overflow_length]; exact h.overflow_len
      · show (_handle_collision _ _ _).count = (_handle_collision _ _ _).items.countP _
        rw [_handle_collision_count, _handle_collision_items]; exact h.count_eq
      · intro i hi
        show (_handle_collision _ _ _).overflow_list.getD i [] = []
        rw [_handle_collision_items] at hi
        by_cases hieq : _map_hash_function hashFn k = i
        · subst hieq
          rw [hslot] at hi
          exact Option.noConfusion hi
        · rw [_handle_collision_overflow_getD_ne _ _ _ _ hieq]
          exact h.chain_of_empty i hi

theorem TableInv_remove (hashFn : Nat → Nat) (k : Nat) (w w2 : World)
    (h : TableInv w) (heq : lv_free_item hashFn k w = some w2) :
    TableInv w2 := by
  have hidx : _map_hash_function hashFn k < HASH_TABLE_SIZE := hash_lt hashFn k
  rcases hslot : w.table.items.getD (_map_hash_function hashFn k) none with _ | p
  · rw [remove_eq_of_absent hashFn k w hslot] at heq
    injection heq with h2
    subst h2
    exact h
  · have hlen : _map_hash_function hashFn k < w.table.items.length :=
      lt_length_of_getD_ne _ none _ (by rw [hslot]; simp)
    rcases hchain : w.table.overflow_list.getD (_map_hash_function hashFn k) []
      with _ | ⟨n0, rest⟩
    · by_cases hkey : p.key = k
      · rw [remove_eq_of_primary_no_chain hashFn k w p hslot hchain hkey] at heq
        injection heq with h2
        subst h2
        refine ⟨h.size_eq, by simp [h.items_len], h.overflow_len, ?_, ?_⟩
        · show w.table.count - 1 = _
          have h2 := countP_isSome_set_none_of_some w.table.items _ p hslot
          rw [h.count_eq, h2]
          simp
        · intro i hi
          by_cases hieq : _map_hash_function hashFn k = i
          · subst hieq; exact hchain
          · rw [list_getD_set_ne _ _ _ _ _ hieq] at hi
            exact h.chain_of_empty i hi
      · rw [remove_eq_of_no_match_no_chain hashFn k w p hslot hchain hkey] at heq
        injection heq with h2
        subst h2
        exact h
    · have hclen : _map_hash_function hashFn k < w.table.overflow_list.length :=
        lt_length_of_getD_ne _ [] _ (by rw [hchain]; simp)
      rcases n0 with _ | e
      · rw [remove_eq_of_dangling_head hashFn k w p rest hslot hchain] at heq
        exact Option.noConfusion heq
      · by_cases hkey : p.key = k
        · rw [remove_eq_of_promote hashFn k w p e rest hslot hchain hkey] at heq
          injection heq with h2
          subst h2
          refine ⟨h.size_eq, by simp [h.items_len], by simp [h.overflow_len], ?_, ?_⟩
          · show w.table.count = _
            rw [countP_isSome_set_some_of_some w.table.items _ _ p hslot, h.count_eq]
          · intro i hi
            by_cases hieq : _map_hash_function hashFn k = i
            · subst hieq
              rw [list_getD_set_self _ _ _ _ hlen] at hi
              cases hi
            · rw [list_getD_set_ne _ _ _ _ _ hieq] at hi
              rw [list_getD_set_ne _ _ _ _ _ hieq]
              exact h.chain_of_empty i hi
        · by_cases hhead : e.key = k
          · rcases hlf : _list_free (some e :: rest) w with _ | w1
            · rw [remove_eq_of_chain_head_crash hashFn k w p e rest hslot hchain
                hkey hhead hlf] at heq
              exact Option.noConfusion heq
            · rw [remove_eq_of_chain_head hashFn k w p e rest w1 hslot hchain
                hkey hhead hlf] at heq
              injection heq with h2
              subst h2
              refine ⟨h.size_eq, h.items_len, by simp [h.overflow_len],
                h.count_eq, ?_⟩
              intro i hi
              by_cases hieq : _map_hash_function hashFn k = i
              · subst hieq
                exact list_getD_set_self _ _ _ _ hclen
              · rw [list_getD_set_ne _ _ _ _ _ hieq]
                exact h.chain_of_empty i hi
          · rcases hscan : chain_scan k rest with _ | _ | ⟨l, freed⟩
            · rw [remove_eq_of_scan_crash hashFn k w p e rest hslot hchain hkey
                hhead hscan] at heq
              exact Option.noConfusion heq
            · rw [remove_eq_of_scan_noMatch hashFn k w p e rest hslot hchain hkey
                hhead hscan] at heq
              injection heq with h2
              subst h2
              exact h
            · rw [remove_eq_of_scan_found hashFn k w p e freed rest l hslot hchain
                hkey hhead hscan] at heq
              injection heq with h2
              subst h2
              refine ⟨h.size_eq, h.items_len, by simp [h.overflow_len],
                h.count_eq, ?_⟩
              intro i hi
              by_cases hieq : _map_hash_function hashFn k = i
              · subst hieq
                rw [hslot] at hi
                exact Option.noConfusion hi
              · rw [list_getD_set_ne _ _ _ _ _ hieq]
                exact h.chain_of_empty i hi

theorem Reachable_inv (hashFn : Nat → Nat) (w : World)
    (h : Reachable hashFn w) : TableInv w := by
  induction h with
  | create => exact TableInv_create
  | insert k v _ ih => exact TableInv_insert hashFn k v _ ih
  | remove k _ heq ih => exact TableInv_remove hashFn k _ _ ih heq

/-! ### Claim theorems: invariants and conditional contracts -/

/-- C5: in every state reachable from create by inserts and removes (find
is pure), `count` equals the number of occupied primary slots; consequently
whenever a key hashes to an empty primary slot the table-full branch
condition `count == size` is false and the insert succeeds, placing the
entry in that slot. -/
theorem C5_count_equals_occupied_slots (hashFn : Nat → Nat) (w : World)
    (hr : Reachable hashFn w) :
    w.table.count = w.table.items.countP (fun o => o.isSome) ∧
      ∀ k v, w.table.items.getD (_map_hash_function hashFn k) none = none →
        w.table.count ≠ w.table.size ∧
          (lv_insert_buf_map hashFn k v w).2 = true ∧
          (lv_insert_buf_map hashFn k v w).1.table.items.getD
              (_map_hash_function hashFn k) none = some { key := k, value := v } := by
  have h := Reachable_inv hashFn w hr
  refine ⟨h.count_eq, ?_⟩
  intro k v hslot
  have hlen : _map_hash_function hashFn k < w.table.items.length := by
    rw [h.items_len]; exact hash_lt hashFn k
  have hlt := countP_isSome_lt_length_of_none w.table.items _ hlen hslot
  have hne : w.table.count ≠ w.table.size := by
    intro heq
    rw [h.count_eq] at heq
    rw [h.size_eq] at heq
    rw [h.items_len] at hlt
    omega
  refine ⟨hne, ?_, ?_⟩
  · rw [insert_eq_of_empty_slot hashFn k v w hslot hne]
  · rw [insert_eq_of_empty_slot hashFn k v w hslot hne]
    exact list_getD_set_self _ _ _ _ hlen

theorem C5_witness :
    (lv_insert_buf_map (fun n => n) 7 3 lv_create_buf_map).2 = true :=
  (((C5_count_equals_occupied_slots (fun n => n) lv_create_buf_map
      Reachable.create).2 7 3 (by decide)).2).1

/-- C6: if an insert targets an empty primary slot while `count == size`,
the call fails (the assertion fires, reported as the `false` flag), the
offered entry's key allocation and resource are released on the spot, and
the table — slots, chains, count — is left completely unchanged. -/
theorem C6_insert_into_full_table_fails (hashFn : Nat → Nat) (k v : Nat)
    (w : World)
    (hslot : w.table.items.getD (_map_hash_function hashFn k) none = none)
    (hfull : w.table.count = w.table.size) :
    (lv_insert_buf_map hashFn k v w).2 = false ∧
      (lv_insert_buf_map hashFn k v w).1.table = w.table ∧
      (lv_insert_buf_map hashFn k v w).1.freed_keys = w.freed_keys ++ [k] ∧
      (lv_insert_buf_map hashFn k v w).1.freed_vals = w.freed_vals ++ [v] := by
  rw [insert_eq_of_full hashFn k v w hslot hfull]
  exact ⟨rfl, rfl, rfl, rfl⟩

/-- A (not reachable, see C5) state exercising the table-full branch: the
slot key 0 hashes to is empty while `count = size`. -/
def wFullDemo : World :=
  { table :=
      { size := 2
        count := 2
        items := [none, some { key := 6, value := 60 }]
        overflow_list := [[], []] }
    freed_keys := []
    freed_vals := [] }

theorem C6_witness :
    (lv_insert_buf_map (fun n => n) 0 7 wFullDemo).2 = false ∧
      (lv_insert_buf_map (fun n => n) 0 7 wFullDemo).1.table = wFullDemo.table ∧
      (lv_insert_buf_map (fun n => n) 0 7 wFullDemo).1.freed_keys =
        wFullDemo.freed_keys ++ [0] ∧
      (lv_insert_buf_map (fun n => n) 0 7 wFullDemo).1.freed_vals =
        wFullDemo.freed_vals ++ [7] :=
  C6_insert_into_full_table_fails (fun n => n) 0 7 wFullDemo (by decide) (by decide)

/-- C7: `count` tracks primary slots only — a collision insert (occupied
slot, different key) leaves `count` unchanged, a successful empty-slot
insert increments it by exactly one, and no insert path ever decreases it. -/
theorem C7_count_only_counts_primary_inserts (hashFn : Nat → Nat)
    (k v : Nat) (w : World) :
    (∀ p, w.table.items.getD (_map_hash_function hashFn k) none = some p →
        p.key ≠ k →
        (lv_insert_buf_map hashFn k v w).1.table.count = w.table.count) ∧
      (w.table.items.getD (_map_hash_function hashFn k) none = none →
        w.table.count ≠ w.table.size →
        (lv_insert_buf_map hashFn k v w).1.table.count = w.table.count + 1) ∧
      w.table.count ≤ (lv_insert_buf_map hashFn k v w).1.table.count := by
  refine ⟨?_, ?_, ?_⟩
  · intro p hslot hkey
    rw [insert_eq_of_collision hashFn k v w p hslot hkey]
    exact _handle_collision_count _ _ _
  · intro hslot hroom
    rw [insert_eq_of_empty_slot hashFn k v w hslot hroom]
  · rcases hslot : w.table.items.getD (_map_hash_function hashFn k) none with _ | p
    · by_cases hfull : w.table.count = w.table.size
      · rw [insert_eq_of_full hashFn k v w hslot hfull]
        exact Nat.le_refl _
      · rw [insert_eq_of_empty_slot hashFn k v w hslot hfull]
        exact Nat.le_succ _
    · by_cases hkey : p.key = k
      · rw [insert_eq_of_update hashFn k v w p hslot hkey]
      · rw [insert_eq_of_collision hashFn k v w p hslot hkey]
        show w.table.count ≤ (_handle_collision _ _ _).count
        rw [_handle_collision_count]

theorem C7_witness :
    (lv_insert_buf_map hash0 2 20
        (lv_insert_buf_map hash0 1 10 lv_create_buf_map).1).1.table.count =
      (lv_insert_buf_map hash0 1 10 lv_create_buf_map).1.table.count :=
  (C7_count_only_counts_primary_inserts hash0 2 20
      (lv_insert_buf_map hash0 1 10 lv_create_buf_map).1).1
    { key := 1, value := 10 } (by decide) (by decide)

/-- C9: inserting a key identical to the occupying primary entry's key
replaces that entry's resource in place and returns success; the old
resource is not released (no release is recorded), `count` is unchanged,
and the bucket's overflow chain is untouched. -/
theorem C9_duplicate_key_update_in_place (hashFn : Nat → Nat) (k v : Nat)
    (w : World) (p : lv_map_item_t)
    (hslot : w.table.items.getD (_map_hash_function hashFn k) none = some p)
    (hkey : p.key = k) :
    (lv_insert_buf_map hashFn k v w).2 = true ∧
      (lv_insert_buf_map hashFn k v w).1.table.items.getD
          (_map_hash_function hashFn k) none = some { key := k, value := v } ∧
      (lv_insert_buf_map hashFn k v w).1.freed_vals = w.freed_vals ∧
      (lv_insert_buf_map hashFn k v w).1.freed_keys = w.freed_keys ∧
      (lv_insert_buf_map hashFn k v w).1.table.count = w.table.count ∧
      (lv_insert_buf_map hashFn k v w).1.table.overflow_list =
        w.table.overflow_list := by
  have hlen : _map_hash_function hashFn k < w.table.items.length :=
    lt_length_of_getD_ne _ none _ (by rw [hslot]; simp)
  rw [insert_eq_of_update hashFn k v w p hslot hkey]
  refine ⟨rfl, ?_, rfl, rfl, rfl, rfl⟩
  rw [list_getD_set_self _ _ _ _ hlen, hkey]

theorem C9_witness :
    (lv_insert_buf_map hash0 1 99
        (lv_insert_buf_map hash0 1 10 lv_create_buf_map).1).1.table.items.getD
        0 none = some { key := 1, value := 99 } :=
  (C9_duplicate_key_update_in_place hash0 1 99
      (lv_insert_buf_map hash0 1 10 lv_create_buf_map).1
      { key := 1, value := 10 } (by decide) (by decide)).2.1

/-- C10: in every reachable state, a bucket whose primary slot is empty has
an empty overflow chain. -/
theorem C10_no_chain_without_primary (hashFn : Nat → Nat) (w : World)
    (hr : Reachable hashFn w) (i : Nat)
    (hi : w.table.items.getD i none = none) :
    w.table.overflow_list.getD i [] = [] :=
  (Reachable_inv hashFn w hr).chain_of_empty i hi

theorem C10_witness : wAB.table.overflow_list.getD 7 [] = [] :=
  C10_no_chain_without_primary hash0 wAB
    (Reachable.insert 2 20 (Reachable.insert 1 10 Reachable.create)) 7 (by decide)

/-- C8 (amended): `remove(k)` twice in a row is idempotent provided the
bucket of `k` contains no dangling freed chain node, `k` is stored at most
once in that bucket, and `k` does not match a chain node past the head.
Then the first call completes without crashing (removing the matching
entry if present) and the immediately repeated `remove(k)` is a no-op that
returns the same state, release log included.  (Each proviso is forced: a
duplicated key makes the second call remove another copy — see the
counterexample; a dangling node in the chain makes the traversal crash on
its NULL item pointer; and a match past the chain head makes the first
call itself leave such a dangling node behind, so the second call crashes
— see the C4 theorem.) -/
theorem C8_amended_remove_twice_idempotent (hashFn : Nat → Nat) (k : Nat)
    (w : World)
    (hlive : ∀ x ∈ w.table.overflow_list.getD (_map_hash_function hashFn k) [],
      x.isSome = true)
    (hocc : bucketOccurrences hashFn k w ≤ 1)
    (hmid : ((w.table.overflow_list.getD (_map_hash_function hashFn k) []).drop 1).countP
        (nodeMatches k) = 0) :
    (lv_free_item hashFn k w).isSome = true ∧
      (lv_free_item hashFn k w).bind (lv_free_item hashFn k) =
        lv_free_item hashFn k w := by
  rcases hslot : w.table.items.getD (_map_hash_function hashFn k) none with _ | p
  · rw [remove_eq_of_absent hashFn k w hslot]
    exact ⟨rfl, remove_eq_of_absent hashFn k w hslot⟩
  · have hlen : _map_hash_function hashFn k < w.table.items.length :=
      lt_length_of_getD_ne _ none _ (by rw [hslot]; simp)
    rcases hchain : w.table.overflow_list.getD (_map_hash_function hashFn k) []
      with _ | ⟨n0, rest⟩
    · by_cases hkey : p.key = k
      · rw [remove_eq_of_primary_no_chain hashFn k w p hslot hchain hkey]
        exact ⟨rfl,
          remove_eq_of_absent hashFn k _ (list_getD_set_self _ _ _ _ hlen)⟩
      · rw [remove_eq_of_no_match_no_chain hashFn k w p hslot hchain hkey]
        exact ⟨rfl, remove_eq_of_no_match_no_chain hashFn k w p hslot hchain hkey⟩
    · have hclen : _map_hash_function hashFn k < w.table.overflow_list.length :=
        lt_length_of_getD_ne _ [] _ (by rw [hchain]; simp)
      rw [hchain] at hlive hmid
      rcases n0 with _ | e
      · have h2 := hlive none (List.mem_cons_self _ _)
        simp at h2
      · by_cases hkey : p.key = k
        · have hocc2 : (some e :: rest).countP (nodeMatches k) = 0 := by
            simp only [bucketOccurrences, hslot, hchain] at hocc
            rw [if_pos hkey] at hocc
            omega
          have he : e.key ≠ k :=
            no_match_of_countP_zero k _ hocc2 e (List.mem_cons_self _ _)
          have hrest0 : rest.countP (nodeMatches k) = 0 := by
            rw [List.countP_cons] at hocc2
            omega
          rw [remove_eq_of_promote hashFn k w p e rest hslot hchain hkey]
          refine ⟨rfl, ?_⟩
          rcases rest with _ | ⟨n1, rest1⟩
          · exact remove_eq_of_no_match_no_chain hashFn k _
              { key := e.key, value := e.value }
              (list_getD_set_self _ _ _ _ hlen)
              (list_getD_set_self _ _ _ _ hclen) he
          · rcases n1 with _ | e1
            · have h2 := hlive none (List.mem_cons_of_mem _ (List.mem_cons_self _ _))
              simp at h2
            · have he1 : e1.key ≠ k :=
                no_match_of_countP_zero k _ hrest0 e1 (List.mem_cons_self _ _)
              have hrest1 : rest1.countP (nodeMatches k) = 0 := by
                rw [List.countP_cons] at hrest0
                omega
              have hlive1 : ∀ x ∈ rest1, x.isSome = true := fun x hx =>
                hlive x (List.mem_cons_of_mem _ (List.mem_cons_of_mem _ hx))
              have hscan : chain_scan k rest1 = ScanResult.noMatch :=
                chain_scan_noMatch_of_live_no_match k rest1 hlive1 hrest1
              exact remove_eq_of_scan_noMatch hashFn k _
                { key := e.key, value := e.value } e1 rest1
                (list_getD_set_self _ _ _ _ hlen)
                (list_getD_set_self _ _ _ _ hclen) he he1 hscan
        · by_cases hhead : e.key = k
          · obtain ⟨w1, hw1, _htab⟩ := _list_free_live (some e :: rest) w hlive
            rw [remove_eq_of_chain_head hashFn k w p e rest w1 hslot hchain hkey
              hhead hw1]
            exact ⟨rfl,
              remove_eq_of_no_match_no_chain hashFn k _ p hslot
                (list_getD_set_self _ _ _ _ hclen) hkey⟩
          · have hrestM : rest.countP (nodeMatches k) = 0 := by
              simpa using hmid
            have hliveR : ∀ x ∈ rest, x.isSome = true := fun x hx =>
              hlive x (List.mem_cons_of_mem _ hx)
            have hscan : chain_scan k rest = ScanResult.noMatch :=
              chain_scan_noMatch_of_live_no_match k rest hliveR hrestM
            rw [remove_eq_of_scan_noMatch hashFn k w p e rest hslot hchain hkey
              hhead hscan]
            exact ⟨rfl,
              remove_eq_of_scan_noMatch hashFn k w p e rest hslot hchain hkey
                hhead hscan⟩

theorem C8_witness :
    (lv_free_item hash0 1 wAB).isSome = true ∧
      (lv_free_item hash0 1 wAB).bind (lv_free_item hash0 1) =
        lv_free_item hash0 1 wAB :=
  C8_amended_remove_twice_idempotent hash0 1 wAB (by decide) (by decide) (by decide)
